import Mathlib

/-!
Verification of the snapd task-orchestration engine specification.

The engine itself (state store, task/change model, task runner, conflict
detector, persistence layer) is described by the specification; the
repository slice at hand contains only its callers (the HTTP client in
client/systems.go and daemon test scaffolding). The engine definitions
below are therefore modelled from the specification's words, each marked
as such; the client functions are translated from client/systems.go.
-/

namespace Snapd

/-- Modelled from the spec: the task status enum (§3) — `Do` (initial) →
`Doing` → `Done` | `Error` | `Wait` | `Hold`, and on abort `Undoing` →
`Undone` | `Error`. -/
inductive Status where
  | Do
  | Doing
  | Done
  | Wait
  | Error
  | Hold
  | Undoing
  | Undone
  deriving DecidableEq, Repr

/-- Modelled from the spec: a Task (§3) — unique ID, kind, summary, status,
owning change ID, WaitTasks and HaltTasks edge sets stored as ID references,
retry counter, scheduled "run not before" timestamp, log, custom data. -/
structure Task where
  id : Nat
  kind : String
  summary : String
  status : Status
  changeID : Nat
  waitTasks : List Nat
  haltTasks : List Nat
  retryCount : Nat
  retryTime : Nat
  log : List String
  data : List (String × String)
  deriving DecidableEq, Repr

/-- Modelled from the spec: a Change (§3) — unique ID, kind, summary, and
the set of member task IDs; its status is derived, never stored. -/
structure Change where
  id : Nat
  kind : String
  summary : String
  taskIDs : List Nat
  deriving DecidableEq, Repr

/-- Modelled from the spec: the State root container (§3) — changes, tasks
and the root custom-data mapping. -/
structure State where
  changes : List Change
  tasks : List Task
  data : List (String × String)
  deriving DecidableEq, Repr

def emptyState : State := ⟨[], [], []⟩

def State.getTask (s : State) (tid : Nat) : Option Task :=
  s.tasks.find? (fun t => t.id == tid)

def State.taskStatus (s : State) (tid : Nat) : Option Status :=
  (s.getTask tid).map Task.status

/-- Modelled from the spec: a task still eligible to progress — it is on
the forward or undo path rather than in a terminal or skipped state. -/
def Status.runnable : Status → Bool
  | .Do | .Doing | .Undoing | .Wait => true
  | _ => false

/-- Modelled from the spec: a task actively advancing (dispatched, waiting
to be dispatched, or mid-undo), used by the aggregate-status derivation. -/
def Status.active : Status → Bool
  | .Do | .Doing | .Undoing => true
  | _ => false

/-- Modelled from the spec: the change aggregate status (§3) — `Done` iff
all member tasks are `Done`; `Doing` while any task is active; `Wait` if
any task requested deferred retry; `Error` if any task is `Error` and no
task is still runnable; otherwise `Hold`. -/
def aggregateStatus (ss : List Status) : Status :=
  if ss.all (· == .Done) then .Done
  else if ss.any Status.active then .Doing
  else if ss.any (· == .Wait) then .Wait
  else if ss.any (· == .Error) then .Error
  else .Hold

/-- The member task statuses of a change, read out of the state. -/
def State.changeTaskStatuses (s : State) (c : Change) : List Status :=
  c.taskIDs.filterMap (fun tid => s.taskStatus tid)

/-- Modelled from the spec: `Change.Status()` (§4.2) computes the aggregate
by scanning member task statuses, recomputed on demand. -/
def State.changeStatus (s : State) (c : Change) : Status :=
  aggregateStatus (s.changeTaskStatuses c)

/-- Modelled from the spec: `IsReady(task)` returns true iff every WaitTask
is `Done` (§4.2). -/
def State.isReady (s : State) (t : Task) : Bool :=
  t.waitTasks.all (fun tid => s.taskStatus tid == some .Done)

/-- Modelled from the spec (§4.3 step 1): a task is ready when its status is
`Do` and `IsReady` holds, or its status is `Wait` and its scheduled retry
time has elapsed. -/
def readyToRun (s : State) (now : Nat) (t : Task) : Bool :=
  (t.status == .Do && s.isReady t) ||
    (t.status == .Wait && decide (t.retryTime ≤ now))

/-- The ready set of one Ensure pass, computed at pass start. -/
def readyTasks (s : State) (now : Nat) : List Task :=
  s.tasks.filter (readyToRun s now)

/-- Modelled from the spec (§6): a handler outcome is success,
retry-after(duration), or failure; an unrecovered fault inside the handler
is captured by the supervising boundary around each dispatch and shows up
as its own outcome (§4.3 step 4). -/
inductive Outcome where
  | success
  | retryAfter (d : Nat)
  | failure (msg : String)
  | fault (msg : String)
  deriving DecidableEq, Repr

/-- Modelled from the spec (§6): the per-kind handler registry — a `Do`
function producing an outcome and an `Undo` function (here reporting
whether the compensating action succeeded). -/
structure Handlers where
  run : String → Option (Task → Outcome)
  undo : String → Option (Task → Bool)

/-- Observable scheduler events, used to state temporal ordering. -/
inductive Event where
  | dispatched (tid : Nat)
  | completed (tid : Nat)
  | failed (tid : Nat)
  | retried (tid : Nat) (nextTime : Nat)
  | held (tid : Nat)
  | undoStarted (tid : Nat)
  | undone (tid : Nat)
  | undoFailed (tid : Nat)
  deriving DecidableEq, Repr

def State.setTaskStatus (s : State) (tid : Nat) (st : Status) : State :=
  { s with tasks := s.tasks.map (fun t =>
      if t.id == tid then { t with status := st } else t) }

/-- Modelled from the spec (§4.2): when a change aborts, tasks still `Do`
transition directly to `Hold` without execution. -/
def abortHold (s : State) (cid : Nat) : State :=
  { s with tasks := s.tasks.map (fun t =>
      if t.changeID == cid && t.status == .Do then { t with status := .Hold }
      else t) }

/-- Modelled from the spec (§4.2): a `Done` task may be undone once it has
no remaining dependent still `Done` — tasks with no remaining dependents
are undone first. -/
def undoable (s : State) (t : Task) : Bool :=
  t.status == .Done &&
    t.haltTasks.all (fun tid => !(s.taskStatus tid == some .Done))

/-- One undo step within the aborted change: pick an undoable `Done` member
task, invoke its handler's undo routine, and record `Undone` on success or
`Error` on undo failure (§4.2, §7e). -/
def undoOne (h : Handlers) (cid : Nat) (s : State) :
    Option (Nat × State × List Event) :=
  match s.tasks.find? (fun t => t.changeID == cid && undoable s t) with
  | none => none
  | some t =>
      match h.undo t.kind with
      | some u =>
          if u t then
            some (t.id, s.setTaskStatus t.id .Undone,
              [.undoStarted t.id, .undone t.id])
          else
            some (t.id, s.setTaskStatus t.id .Error,
              [.undoStarted t.id, .undoFailed t.id])
      | none =>
          some (t.id, s.setTaskStatus t.id .Undone,
            [.undoStarted t.id, .undone t.id])

/-- Modelled from the spec (§4.2): undo propagation — every task already
`Done` in the aborted change has its undo routine invoked, strictly in
reverse dependency order. Fuelled iteration of `undoOne`. -/
def undoLoop (h : Handlers) (cid : Nat) : Nat → State → State × List Event
  | 0, s => (s, [])
  | fuel + 1, s =>
      match undoOne h cid s with
      | none => (s, [])
      | some (_, s', evs) =>
          let r := undoLoop h cid fuel s'
          (r.1, evs ++ r.2)

/-- Failure handling (§4.3 step 4 and §4.2): record `Error` on the failed
task, hold the change's still-`Do` siblings, then drive undo propagation. -/
def failTask (h : Handlers) (t : Task) (s : State) : State × List Event :=
  let s1 := s.setTaskStatus t.id .Error
  let heldIds := ((s1.tasks.filter (fun u =>
      u.changeID == t.changeID && u.status == .Do)).map Task.id)
  let s2 := abortHold s1 t.changeID
  let r := undoLoop h t.changeID s1.tasks.length s2
  (r.1, .failed t.id :: (heldIds.map Event.held ++ r.2))

/-- Modelled from the spec (§4.3 step 4): interpret a handler outcome —
success → `Done`; retry-after(d) → `Wait` with updated retry timestamp and
incremented retry counter; failure → `Error` plus undo propagation; a
contained fault is likewise recorded as `Error`. -/
def recordOutcome (h : Handlers) (now : Nat) (t : Task) (o : Outcome)
    (s : State) : State × List Event :=
  match o with
  | .success => (s.setTaskStatus t.id .Done, [.completed t.id])
  | .retryAfter d =>
      ({ s with tasks := s.tasks.map (fun u =>
          if u.id == t.id then
            { u with status := .Wait, retryTime := now + d,
                     retryCount := u.retryCount + 1 }
          else u) },
        [.retried t.id (now + d)])
  | .failure _ => failTask h t s
  | .fault _ => failTask h t s

/-- Modelled from the spec (§4.3 steps 2–4): dispatch one ready task — if
it is still eligible in the current state, mark it `Doing`, invoke its
registered handler, and record the outcome. A kind with no registered
handler is a fatal configuration error caught at startup (§4.3 step 2), so
dispatch leaves such a task untouched. -/
def runOne (h : Handlers) (now : Nat) (s : State) (t0 : Task) :
    State × List Event :=
  match s.getTask t0.id with
  | none => (s, [])
  | some t =>
      if readyToRun s now t then
        match h.run t.kind with
        | none => (s, [])
        | some f =>
            let td := { t with status := Status.Doing }
            let s1 := s.setTaskStatus t.id .Doing
            let r := recordOutcome h now td (f td) s1
            (r.1, .dispatched t.id :: r.2)
      else (s, [])

/-- Sequential processing of the pass's ready list; the pass never stops
early, whatever the outcomes. -/
def runAll (h : Handlers) (now : Nat) : State → List Task → State × List Event
  | s, [] => (s, [])
  | s, t :: rest =>
      let r1 := runOne h now s t
      let r2 := runAll h now r1.1 rest
      (r2.1, r1.2 ++ r2.2)

/-- Modelled from the spec (§4.3): one Ensure pass — compute the ready set,
then dispatch each ready task and record its outcome. -/
def ensurePass (h : Handlers) (now : Nat) (s : State) : State × List Event :=
  runAll h now s (readyTasks s now)

/-- Modelled from the spec (§4.3 step 5, §4.1): persist a checkpoint iff
the pass changed the state graph. -/
def ensureCheckpoints (h : Handlers) (now : Nat) (s : State) : Bool :=
  !((ensurePass h now s).1 == s)

/-- The sequence of task IDs whose undo routine was invoked, in trace order. -/
def undoOrder (evs : List Event) : List Nat :=
  evs.filterMap (fun e =>
    match e with
    | .undoStarted tid => some tid
    | _ => none)

/-- Position of the first occurrence of `a`, used to state trace ordering. -/
def firstIdx (a : Nat) : List Nat → Nat
  | [] => 0
  | x :: xs => if x = a then 0 else firstIdx a xs + 1

/-- The spec's §8 undo-ordering scenario: change with tasks A→B→C, where C
waits on B and B waits on A. -/
def abcTaskA : Task := ⟨1, "link-a", "A", .Do, 1, [], [2], 0, 0, [], []⟩

def abcTaskB : Task := ⟨2, "link-b", "B", .Do, 1, [1], [3], 0, 0, [], []⟩

def abcTaskC : Task := ⟨3, "link-c", "C", .Do, 1, [2], [], 0, 0, [], []⟩

def abcChange : Change := ⟨1, "manip", "install", [1, 2, 3]⟩

def abcState : State := ⟨[abcChange], [abcTaskA, abcTaskB, abcTaskC], []⟩

/-- Handlers for the scenario: A and C succeed, B's handler fails. -/
def abcHandlers : Handlers :=
  { run := fun k =>
      if k == "link-a" then some (fun _ => .success)
      else if k == "link-b" then some (fun _ => .failure "boom")
      else if k == "link-c" then some (fun _ => .success)
      else none,
    undo := fun _ => some (fun _ => true) }

def abcPass1 : State × List Event := ensurePass abcHandlers 0 abcState

def abcPass2 : State × List Event := ensurePass abcHandlers 0 abcPass1.1

def abcTrace : List Event := abcPass1.2 ++ abcPass2.2

/-- A pair of `Done` tasks in one change, Q depending on P. -/
def undoPairTaskP : Task := ⟨1, "k", "P", .Done, 1, [], [2], 0, 0, [], []⟩

def undoPairTaskQ : Task := ⟨2, "k", "Q", .Done, 1, [1], [], 0, 0, [], []⟩

def undoPairState : State :=
  ⟨[⟨1, "manip", "pq", [1, 2]⟩], [undoPairTaskP, undoPairTaskQ], []⟩

def isUndoEvent : Event → Bool
  | .undoStarted _ => true
  | .undone _ => true
  | .undoFailed _ => true
  | _ => false

/-- A parked `Wait` task scheduled to retry at time 5. -/
def waitTask : Task := ⟨4, "w", "W", .Wait, 2, [], [], 1, 5, [], []⟩

def waitState : State := ⟨[⟨2, "c", "s", [4]⟩], [waitTask], []⟩

/-- A task whose handler faults, alone in change 1. -/
def faultTaskX : Task := ⟨10, "bad", "X", .Do, 1, [], [], 0, 0, [], []⟩

/-- An unrelated ready task in change 2 whose handler succeeds. -/
def faultTaskY : Task := ⟨20, "good", "Y", .Do, 2, [], [], 0, 0, [], []⟩

def faultState : State :=
  ⟨[⟨1, "c1", "x", [10]⟩, ⟨2, "c2", "y", [20]⟩],
    [faultTaskX, faultTaskY], []⟩

def faultHandlers : Handlers :=
  { run := fun k =>
      if k == "bad" then some (fun _ => .fault "runtime fault")
      else if k == "good" then some (fun _ => .success)
      else none,
    undo := fun _ => none }

def faultPass : State × List Event := ensurePass faultHandlers 0 faultState

/-- Modelled from the spec (§6): the collaborator-supplied conflict
footprint registry — per task kind, a function from the task's custom data
to the set of resource names it contends for. -/
def FootprintPreds : Type :=
  String → Option (List (String × String) → List String)

/-- Modelled from the spec (§6): the footprint of one task; a kind with no
registered predicate never conflicts. -/
def taskFootprint (preds : FootprintPreds) (t : Task) : List String :=
  match preds t.kind with
  | some f => f t.data
  | none => []

/-- Modelled from the spec (§3): terminal aggregate statuses — a change
whose aggregate status is terminal is no longer in flight. -/
def Status.terminal : Status → Bool
  | .Done => true
  | .Error => true
  | _ => false

def State.changeTasks (s : State) (c : Change) : List Task :=
  c.taskIDs.filterMap s.getTask

/-- Modelled from the spec (§4.4): a change's resource footprint is the
union of its member tasks' footprints. -/
def State.changeFootprint (preds : FootprintPreds) (s : State)
    (c : Change) : List String :=
  (s.changeTasks c).flatMap (taskFootprint preds)

/-- A conflict error names the offending resource and the blocking change. -/
structure ConflictError where
  resource : String
  changeID : Nat
  deriving DecidableEq, Repr

def checkConflictsOver (preds : FootprintPreds) (s : State)
    (fp : List String) : List Change → Except ConflictError Unit
  | [] => .ok ()
  | c :: rest =>
      if (s.changeStatus c).terminal then
        checkConflictsOver preds s fp rest
      else
        match fp.find? (fun r => (s.changeFootprint preds c).contains r) with
        | some r => .error ⟨r, c.id⟩
        | none => checkConflictsOver preds s fp rest

/-- Modelled from the spec (§4.4): before a new change is admitted, compare
its footprint against the footprints of all non-terminal changes; overlap
on any resource rejects admission with a conflict error naming the
offending resource and the blocking change. -/
def checkConflicts (preds : FootprintPreds) (s : State)
    (fp : List String) : Except ConflictError Unit :=
  checkConflictsOver preds s fp s.changes

/-- An in-flight change (id 3) whose single `Doing` task contends for
resource `pkg:foo`. -/
def demoPreds : FootprintPreds := fun k =>
  if k == "link-snap" then
    some (fun d => d.filterMap (fun p =>
      if p.1 == "snap-name" then some ("pkg:" ++ p.2) else none))
  else none

def inFlightTask : Task :=
  ⟨30, "link-snap", "S", .Doing, 3, [], [], 0, 0, [],
    [("snap-name", "foo")]⟩

def inFlightChange : Change := ⟨3, "manip", "s", [30]⟩

def inFlightState : State := ⟨[inFlightChange], [inFlightTask], []⟩

/-- Wire form of a task status in the persisted document. -/
def Status.toWire : Status → String
  | .Do => "do"
  | .Doing => "doing"
  | .Done => "done"
  | .Wait => "wait"
  | .Error => "error"
  | .Hold => "hold"
  | .Undoing => "undoing"
  | .Undone => "undone"

def statusOfWire (s : String) : Option Status :=
  if s == "do" then some .Do
  else if s == "doing" then some .Doing
  else if s == "done" then some .Done
  else if s == "wait" then some .Wait
  else if s == "error" then some .Error
  else if s == "hold" then some .Hold
  else if s == "undoing" then some .Undoing
  else if s == "undone" then some .Undone
  else none

/-- Modelled from the spec (§6): the persisted task record — id, kind,
summary, status, change-id, wait/halt id lists, retry count, next-retry
timestamp, log entries, custom data. -/
structure WireTask where
  id : Nat
  kind : String
  summary : String
  status : String
  changeID : Nat
  waitTasks : List Nat
  haltTasks : List Nat
  retryCount : Nat
  retryTime : Nat
  log : List String
  data : List (String × String)
  deriving DecidableEq, Repr

/-- Modelled from the spec (§6): the persisted change record — id, kind,
summary, task-id list. -/
structure WireChange where
  id : Nat
  kind : String
  summary : String
  taskIDs : List Nat
  deriving DecidableEq, Repr

/-- Modelled from the spec (§6): the persisted state layout — a single
structured document with the change list, the task list and the root
custom-data mapping. -/
structure WireState where
  changes : List WireChange
  tasks : List WireTask
  data : List (String × String)
  deriving DecidableEq, Repr

def saveTask (t : Task) : WireTask :=
  ⟨t.id, t.kind, t.summary, t.status.toWire, t.changeID, t.waitTasks,
    t.haltTasks, t.retryCount, t.retryTime, t.log, t.data⟩

def loadTask (w : WireTask) : Option Task :=
  match statusOfWire w.status with
  | some st =>
      some ⟨w.id, w.kind, w.summary, st, w.changeID, w.waitTasks,
        w.haltTasks, w.retryCount, w.retryTime, w.log, w.data⟩
  | none => none

def saveChange (c : Change) : WireChange :=
  ⟨c.id, c.kind, c.summary, c.taskIDs⟩

def loadChange (w : WireChange) : Change :=
  ⟨w.id, w.kind, w.summary, w.taskIDs⟩

def loadTasks : List WireTask → Option (List Task)
  | [] => some []
  | w :: rest =>
      match loadTask w, loadTasks rest with
      | some t, some ts => some (t :: ts)
      | _, _ => none

/-- Modelled from the spec (§4.6/§6): serialize the entire state to the
persisted document. -/
def save (s : State) : WireState :=
  ⟨s.changes.map saveChange, s.tasks.map saveTask, s.data⟩

/-- Modelled from the spec (§4.6/§6): deserialize the persisted document;
a malformed record (unknown status) fails the whole load. -/
def load (w : WireState) : Option State :=
  match loadTasks w.tasks with
  | some ts => some ⟨w.changes.map loadChange, ts, w.data⟩
  | none => none

/-- Modelled from the spec (§4.6): startup load — an absent state file
yields the empty State; a present but malformed file is a fatal startup
error, never a silent partial load. -/
def readState (file : Option WireState) : Except String State :=
  match file with
  | none => .ok emptyState
  | some w =>
      match load w with
      | some s => .ok s
      | none => .error "cannot read state: malformed state file"

/-- A persisted document holding one task with an unknown status string. -/
def malformedDoc : WireState :=
  ⟨[], [⟨1, "k", "s", "bogus", 1, [], [], 0, 0, [], []⟩], []⟩

/-- Translated from client/systems.go: SystemAction — a user presentable
action title and the mode it can be executed in. -/
structure SystemAction where
  title : String
  mode : String
  deriving DecidableEq, Repr

/-- Translated from client/systems.go: InstallSystemOptions — the install
step plus the remaining JSON-serializable option fields, kept at their
wire-level granularity (volumes, optional install and volumes-auth bodies
are opaque to the client). -/
structure InstallSystemOptions where
  step : String
  onVolumes : List (String × String)
  optionalInstall : Option String
  volumesAuth : Option String
  deriving DecidableEq, Repr

/-- The JSON body the client encodes before issuing a request, embedded as
the structured value it serializes. -/
inductive RequestBody where
  | installBody (action : String) (opts : Option InstallSystemOptions)
  | actionBody (action : String) (act : SystemAction)
  deriving DecidableEq, Repr

/-- An HTTP request issued by the client. -/
structure Request where
  method : String
  path : String
  body : RequestBody
  deriving DecidableEq, Repr

/-- The client's HTTP exchange functions (doSync/doAsync in the Go client)
are external collaborators, modelled as oracles: doAsync yields a change
ID, doSync yields a response body. -/
structure Client where
  doAsync : Request → Except String String
  doSync : Request → Except String String

/-- Translated from client/systems.go: InstallSystem performs the given
install step for the given volumes. An empty system label is rejected
before any request is issued; otherwise one POST request is issued and the
change ID returned. The second component records every request issued. -/
def Client.InstallSystem (c : Client) (systemLabel : String)
    (opts : Option InstallSystemOptions) :
    (String × Option String) × List Request :=
  if systemLabel == "" then
    (("", some "cannot install with an empty system label"), [])
  else
    let req : Request :=
      ⟨"POST", "/v2/systems/" ++ systemLabel, .installBody "install" opts⟩
    match c.doAsync req with
    | .ok chgID => ((chgID, none), [req])
    | .error e =>
        (("", some ("cannot request system install for \"" ++ systemLabel
          ++ "\": " ++ e)), [req])

/-- Translated from client/systems.go: DoSystemAction issues a request to
perform an action using the given seed system and its mode; an empty
system label or a missing action is rejected before any request is
issued. -/
def Client.DoSystemAction (c : Client) (systemLabel : String)
    (action : Option SystemAction) : Option String × List Request :=
  if systemLabel == "" then
    (some "cannot request an action without the system", [])
  else
    match action with
    | none => (some "cannot request an action without one", [])
    | some act =>
        let req : Request :=
          ⟨"POST", "/v2/systems/" ++ systemLabel, .actionBody "do" act⟩
        match c.doSync req with
        | .ok _ => (none, [req])
        | .error e =>
            (some ("cannot request system action: " ++ e), [req])

theorem aggregateStatus_done_iff (ss : List Status) :
    aggregateStatus ss = .Done ↔ ∀ st ∈ ss, st = .Done := by
  constructor
  · intro hc
    by_contra hne
    have hall : ¬ ss.all (· == .Done) = true := by
      simp only [List.all_eq_true, beq_iff_eq]
      exact hne
    unfold aggregateStatus at hc
    rw [if_neg hall] at hc
    split at hc
    · cases hc
    · split at hc
      · cases hc
      · split at hc
        · cases hc
        · cases hc
  · intro hall
    unfold aggregateStatus
    rw [if_pos]
    simp only [List.all_eq_true, beq_iff_eq]
    exact hall

theorem aggregateStatus_error_iff (ss : List Status) :
    aggregateStatus ss = .Error ↔
      ((∃ st ∈ ss, st = .Error) ∧ ∀ st ∈ ss, st.runnable = false) := by
  unfold aggregateStatus
  split
  · rename_i h
    simp only [List.all_eq_true, beq_iff_eq] at h
    constructor
    · intro hc; cases hc
    · rintro ⟨⟨st, hmem, hst⟩, _⟩
      have := h st hmem
      simp [hst] at this
  · rename_i hnd
    split
    · rename_i h
      simp only [List.any_eq_true] at h
      obtain ⟨st, hmem, hact⟩ := h
      constructor
      · intro hc; cases hc
      · rintro ⟨_, hnone⟩
        have := hnone st hmem
        cases st <;> simp_all [Status.active, Status.runnable]
    · rename_i hnact
      split
      · rename_i h
        simp only [List.any_eq_true, beq_iff_eq] at h
        obtain ⟨st, hmem, hst⟩ := h
        constructor
        · intro hc; cases hc
        · rintro ⟨_, hnone⟩
          have := hnone st hmem
          rw [hst] at this
          simp [Status.runnable] at this
      · rename_i hnw
        simp only [List.any_eq_true, beq_iff_eq, not_exists, not_and] at hnact hnw
        split
        · rename_i h
          simp only [List.any_eq_true, beq_iff_eq] at h
          obtain ⟨st, hmem, hst⟩ := h
          constructor
          · intro _
            refine ⟨⟨st, hmem, hst⟩, ?_⟩
            intro u hu
            cases u with
            | Do => exact absurd rfl (hnact _ hu)
            | Doing => exact absurd rfl (hnact _ hu)
            | Undoing => exact absurd rfl (hnact _ hu)
            | Wait => exact absurd rfl (hnw _ hu)
            | Done => rfl
            | Error => rfl
            | Hold => rfl
            | Undone => rfl
          · intro _; rfl
        · rename_i hne
          simp only [List.any_eq_true, beq_iff_eq, not_exists, not_and] at hne
          constructor
          · intro hc; cases hc
          · rintro ⟨⟨st, hmem, hst⟩, _⟩
            exact absurd hst (hne st hmem)

/-- C1: for every change, the derived aggregate status is `Done` iff every
member task's status is `Done`, and it is `Error` iff some member task's
status is `Error` and no member task is still eligible to progress. -/
theorem change_aggregate_status_done_error (s : State) (c : Change) :
    (s.changeStatus c = .Done ↔
        ∀ st ∈ s.changeTaskStatuses c, st = .Done) ∧
    (s.changeStatus c = .Error ↔
        ((∃ st ∈ s.changeTaskStatuses c, st = .Error) ∧
          ∀ st ∈ s.changeTaskStatuses c, st.runnable = false)) :=
  ⟨aggregateStatus_done_iff _, aggregateStatus_error_iff _⟩

theorem undoOrder_append (a b : List Event) :
    undoOrder (a ++ b) = undoOrder a ++ undoOrder b :=
  List.filterMap_append a b _

theorem map_id_update (l : List Task) (f : Task → Task)
    (hf : ∀ t, (f t).id = t.id) : (l.map f).map Task.id = l.map Task.id := by
  induction l with
  | nil => rfl
  | cons a l ih =>
      simp only [List.map_cons, ih, List.cons.injEq]
      exact ⟨hf a, trivial⟩

theorem setTaskStatus_map_id (s : State) (tid : Nat) (st : Status) :
    (s.setTaskStatus tid st).tasks.map Task.id = s.tasks.map Task.id := by
  apply map_id_update
  intro t
  split <;> rfl

theorem mem_setTaskStatus_of_ne (s : State) (tid : Nat) (st : Status)
    (t : Task) (ht : t ∈ s.tasks) (hne : t.id ≠ tid) :
    t ∈ (s.setTaskStatus tid st).tasks := by
  simp only [State.setTaskStatus, List.mem_map]
  exact ⟨t, ht, by simp [hne]⟩

theorem find?_id_eq_some_of_mem (l : List Task)
    (hnd : (l.map Task.id).Nodup) (t : Task) (ht : t ∈ l) :
    l.find? (fun u => u.id == t.id) = some t := by
  induction l with
  | nil => cases ht
  | cons a l ih =>
      simp only [List.map_cons, List.nodup_cons] at hnd
      by_cases hpa : (a.id == t.id) = true
      · rw [List.find?_cons, hpa]
        have haid : a.id = t.id := by simpa using hpa
        rcases List.mem_cons.mp ht with h | h
        · rw [h]
        · exact absurd (haid ▸ List.mem_map_of_mem Task.id h) hnd.1
      · rw [List.find?_cons, Bool.eq_false_iff.mpr hpa]
        rcases List.mem_cons.mp ht with h | h
        · rw [h] at hpa
          simp at hpa
        · exact ih hnd.2 h

theorem getTask_eq_some_of_mem (s : State) (t : Task)
    (hnd : (s.tasks.map Task.id).Nodup) (ht : t ∈ s.tasks) :
    s.getTask t.id = some t :=
  find?_id_eq_some_of_mem s.tasks hnd t ht

theorem taskStatus_eq_of_mem (s : State) (t : Task)
    (hnd : (s.tasks.map Task.id).Nodup) (ht : t ∈ s.tasks) :
    s.taskStatus t.id = some t.status := by
  unfold State.taskStatus
  rw [getTask_eq_some_of_mem s t hnd ht]
  rfl

theorem undoable_spec (s : State) (t : Task) (h : undoable s t = true) :
    t.status = .Done ∧ ∀ tid ∈ t.haltTasks, ¬ s.taskStatus tid = some .Done := by
  unfold undoable at h
  simp only [Bool.and_eq_true, beq_iff_eq, List.all_eq_true, Bool.not_eq_true',
    beq_eq_false_iff_ne, ne_eq] at h
  exact h

theorem undoOne_spec (h : Handlers) (cid : Nat) (s : State) (uid : Nat)
    (s' : State) (evs : List Event)
    (he : undoOne h cid s = some (uid, s', evs)) :
    ∃ u : Task, u ∈ s.tasks ∧ u.id = uid ∧ u.changeID = cid ∧
      undoable s u = true ∧ undoOrder evs = [u.id] ∧
      (s' = s.setTaskStatus u.id .Undone ∨ s' = s.setTaskStatus u.id .Error) := by
  unfold undoOne at he
  cases hf : s.tasks.find? (fun t => t.changeID == cid && undoable s t) with
  | none =>
      rw [hf] at he
      cases he
  | some u =>
      rw [hf] at he
      dsimp only at he
      have hmem := List.mem_of_find?_eq_some hf
      have hp := List.find?_some hf
      simp only [Bool.and_eq_true, beq_iff_eq] at hp
      refine ⟨u, hmem, ?_, hp.1, hp.2, ?_, ?_⟩ <;>
      · cases hu : h.undo u.kind with
        | none =>
            rw [hu] at he
            simp only [Option.some.injEq, Prod.mk.injEq] at he
            obtain ⟨h1, h2, h3⟩ := he
            first
              | exact h1
              | (rw [← h3]; rfl)
              | exact Or.inl h2.symm
        | some ufn =>
            rw [hu] at he
            dsimp only at he
            by_cases hret : ufn u = true
            · rw [if_pos hret] at he
              simp only [Option.some.injEq, Prod.mk.injEq] at he
              obtain ⟨h1, h2, h3⟩ := he
              first
                | exact h1
                | (rw [← h3]; rfl)
                | exact Or.inl h2.symm
            · rw [if_neg hret] at he
              simp only [Option.some.injEq, Prod.mk.injEq] at he
              obtain ⟨h1, h2, h3⟩ := he
              first
                | exact h1
                | (rw [← h3]; rfl)
                | exact Or.inr h2.symm

theorem undoLoop_reverse_order (h : Handlers) (cid : Nat) (fuel : Nat) :
    ∀ (s : State) (x y : Task),
      (s.tasks.map Task.id).Nodup →
      x ∈ s.tasks → y ∈ s.tasks →
      x.status = .Done → y.status = .Done →
      y.id ∈ x.haltTasks → x.id ≠ y.id →
      x.id ∈ undoOrder (undoLoop h cid fuel s).2 →
      firstIdx y.id (undoOrder (undoLoop h cid fuel s).2) <
        firstIdx x.id (undoOrder (undoLoop h cid fuel s).2) := by
  induction fuel with
  | zero =>
      intro s x y _ _ _ _ _ _ _ hxin
      simp [undoLoop, undoOrder] at hxin
  | succ n ih =>
      intro s x y hnd hxm hym hxs hys hyh hxy hxin
      rw [undoLoop] at hxin ⊢
      cases he : undoOne h cid s with
      | none =>
          rw [he] at hxin
          simp [undoOrder] at hxin
      | some res =>
          obtain ⟨uid, s', evs⟩ := res
          rw [he] at hxin
          dsimp only at hxin ⊢
          obtain ⟨u, humem, huid, hucid, hund, hord, hs'⟩ :=
            undoOne_spec h cid s uid s' evs he
          rw [undoOrder_append, hord] at hxin ⊢
          by_cases hux : u.id = x.id
          · exfalso
            have hux' : u = x :=
              List.inj_on_of_nodup_map hnd humem hxm hux
            obtain ⟨_, hnodep⟩ := undoable_spec s u hund
            have hyst : s.taskStatus y.id = some .Done := by
              rw [taskStatus_eq_of_mem s y hnd hym, hys]
            exact hnodep y.id (hux' ▸ hyh) hyst
          · by_cases huy : u.id = y.id
            · have hcy : (u.id = y.id) = True := by simp [huy]
              have hcx : (u.id = x.id) = False := by simp [hux]
              simp only [List.cons_append, List.nil_append, firstIdx, hcy,
                hcx, if_true, if_false]
              exact Nat.succ_pos _
            · obtain ⟨st, hset⟩ : ∃ st, s' = s.setTaskStatus u.id st := by
                rcases hs' with h1 | h1
                · exact ⟨_, h1⟩
                · exact ⟨_, h1⟩
              have hnd' : (s'.tasks.map Task.id).Nodup := by
                rw [hset, setTaskStatus_map_id]
                exact hnd
              have hxm' : x ∈ s'.tasks := by
                rw [hset]
                exact mem_setTaskStatus_of_ne s u.id st x hxm
                  (fun hh => hux hh.symm)
              have hym' : y ∈ s'.tasks := by
                rw [hset]
                exact mem_setTaskStatus_of_ne s u.id st y hym
                  (fun hh => huy hh.symm)
              have hxin' : x.id ∈ undoOrder (undoLoop h cid n s').2 := by
                rcases List.mem_cons.mp hxin with h1 | h1
                · exact absurd h1.symm hux
                · exact h1
              have hres := ih s' x y hnd' hxm' hym' hxs hys hyh hxy hxin'
              have hcy : (u.id = y.id) = False := by simp [huy]
              have hcx : (u.id = x.id) = False := by simp [hux]
              simp only [List.cons_append, List.nil_append, firstIdx, hcy,
                hcx, if_false]
              exact Nat.succ_lt_succ hres

/-- C2: in the A→B→C change where B's handler fails after A reached `Done`,
the terminal statuses are A = `Undone`, B = `Error`, C = `Hold`; A's undo
runs strictly after B's failure is recorded, and C is held without its
handler ever executing; in general, `Done` tasks of the failing change are
undone strictly in reverse dependency order (a task is undone only after
every dependent of it that was `Done`). -/
theorem undo_ordering_on_failure :
    (abcPass2.1.taskStatus 1 = some .Undone ∧
      abcPass2.1.taskStatus 2 = some .Error ∧
      abcPass2.1.taskStatus 3 = some .Hold) ∧
    (abcTrace = [.dispatched 1, .completed 1, .dispatched 2, .failed 2,
        .held 3, .undoStarted 1, .undone 1] ∧
      (∃ l1 l2, abcTrace = l1 ++ Event.failed 2 :: l2 ∧
        Event.undoStarted 1 ∈ l2) ∧
      Event.dispatched 3 ∉ abcTrace) ∧
    (∀ (h : Handlers) (cid fuel : Nat) (s : State) (x y : Task),
      (s.tasks.map Task.id).Nodup →
      x ∈ s.tasks → y ∈ s.tasks →
      x.status = .Done → y.status = .Done →
      y.id ∈ x.haltTasks → x.id ≠ y.id →
      x.id ∈ undoOrder (undoLoop h cid fuel s).2 →
      firstIdx y.id (undoOrder (undoLoop h cid fuel s).2) <
        firstIdx x.id (undoOrder (undoLoop h cid fuel s).2)) := by
  refine ⟨⟨by decide, by decide, by decide⟩,
    ⟨by decide,
      ⟨[.dispatched 1, .completed 1, .dispatched 2],
        [.held 3, .undoStarted 1, .undone 1], by decide, by decide⟩,
      by decide⟩,
    fun h cid fuel s x y => undoLoop_reverse_order h cid fuel s x y⟩

/-- Witness for C2's general reverse-order component, at the two-task
`Done` chain P←Q: Q is undone before P. -/
theorem undo_ordering_on_failure_witness :
    firstIdx undoPairTaskQ.id
        (undoOrder (undoLoop abcHandlers 1 2 undoPairState).2) <
      firstIdx undoPairTaskP.id
        (undoOrder (undoLoop abcHandlers 1 2 undoPairState).2) :=
  undo_ordering_on_failure.2.2 abcHandlers 1 2 undoPairState
    undoPairTaskP undoPairTaskQ (by decide) (by decide) (by decide)
    (by decide) (by decide) (by decide) (by decide) (by decide)

theorem undoOne_events_undo (h : Handlers) (cid : Nat) (s : State)
    (uid : Nat) (s' : State) (evs : List Event)
    (he : undoOne h cid s = some (uid, s', evs)) :
    ∀ e ∈ evs, isUndoEvent e = true := by
  unfold undoOne at he
  cases hf : s.tasks.find? (fun t => t.changeID == cid && undoable s t) with
  | none =>
      rw [hf] at he
      cases he
  | some u =>
      rw [hf] at he
      dsimp only at he
      cases hu : h.undo u.kind with
      | none =>
          rw [hu] at he
          simp only [Option.some.injEq, Prod.mk.injEq] at he
          rw [← he.2.2]
          intro e hmem
          rcases hmem with _ | ⟨_, _ | ⟨_, hh⟩⟩ <;> first | rfl | cases hh
      | some ufn =>
          rw [hu] at he
          dsimp only at he
          split at he <;>
          · simp only [Option.some.injEq, Prod.mk.injEq] at he
            rw [← he.2.2]
            intro e hmem
            rcases hmem with _ | ⟨_, _ | ⟨_, hh⟩⟩ <;> first | rfl | cases hh

theorem undoLoop_events_undo (h : Handlers) (cid fuel : Nat) :
    ∀ (s : State), ∀ e ∈ (undoLoop h cid fuel s).2, isUndoEvent e = true := by
  induction fuel with
  | zero =>
      intro s e hmem
      simp [undoLoop] at hmem
  | succ n ih =>
      intro s e hmem
      rw [undoLoop] at hmem
      cases he : undoOne h cid s with
      | none =>
          rw [he] at hmem
          simp at hmem
      | some res =>
          obtain ⟨uid, s', evs⟩ := res
          rw [he] at hmem
          dsimp only at hmem
          rcases List.mem_append.mp hmem with h1 | h1
          · exact undoOne_events_undo h cid s uid s' evs he e h1
          · exact ih s' e h1

theorem recordOutcome_dispatched_not_mem (h : Handlers) (now : Nat)
    (t : Task) (o : Outcome) (s : State) (tid : Nat) :
    Event.dispatched tid ∉ (recordOutcome h now t o s).2 := by
  intro hmem
  cases o with
  | success => simp [recordOutcome] at hmem
  | retryAfter d => simp [recordOutcome] at hmem
  | failure msg =>
      simp only [recordOutcome, failTask] at hmem
      rcases List.mem_cons.mp hmem with h0 | hmem'
      · cases h0
      · rcases List.mem_append.mp hmem' with h1 | h1
        · obtain ⟨i, _, hh⟩ := List.mem_map.mp h1
          cases hh
        · have := undoLoop_events_undo h t.changeID _ _ _ h1
          cases this
  | fault msg =>
      simp only [recordOutcome, failTask] at hmem
      rcases List.mem_cons.mp hmem with h0 | hmem'
      · cases h0
      · rcases List.mem_append.mp hmem' with h1 | h1
        · obtain ⟨i, _, hh⟩ := List.mem_map.mp h1
          cases hh
        · have := undoLoop_events_undo h t.changeID _ _ _ h1
          cases this

theorem recordOutcome_completed_mem (h : Handlers) (now : Nat)
    (t : Task) (o : Outcome) (s : State) (tid : Nat)
    (hmem : Event.completed tid ∈ (recordOutcome h now t o s).2) :
    tid = t.id := by
  cases o with
  | success =>
      simp only [recordOutcome, List.mem_singleton] at hmem
      cases hmem
      rfl
  | retryAfter d => simp [recordOutcome] at hmem
  | failure msg =>
      exfalso
      simp only [recordOutcome, failTask] at hmem
      rcases List.mem_cons.mp hmem with h0 | hmem'
      · cases h0
      · rcases List.mem_append.mp hmem' with h1 | h1
        · obtain ⟨i, _, hh⟩ := List.mem_map.mp h1
          cases hh
        · have := undoLoop_events_undo h t.changeID _ _ _ h1
          cases this
  | fault msg =>
      exfalso
      simp only [recordOutcome, failTask] at hmem
      rcases List.mem_cons.mp hmem with h0 | hmem'
      · cases h0
      · rcases List.mem_append.mp hmem' with h1 | h1
        · obtain ⟨i, _, hh⟩ := List.mem_map.mp h1
          cases hh
        · have := undoLoop_events_undo h t.changeID _ _ _ h1
          cases this

theorem runOne_dispatch_id (h : Handlers) (now : Nat) (s : State)
    (t0 : Task) (tid : Nat)
    (hmem : Event.dispatched tid ∈ (runOne h now s t0).2 ∨
      Event.completed tid ∈ (runOne h now s t0).2) :
    tid = t0.id := by
  unfold runOne at hmem
  cases hg : s.getTask t0.id with
  | none =>
      rw [hg] at hmem
      rcases hmem with h1 | h1 <;> simp at h1
  | some t =>
      have hid : t.id = t0.id := by
        have := List.find?_some hg
        simpa using this
      rw [hg] at hmem
      dsimp only at hmem
      split at hmem
      · cases hr : h.run t.kind with
        | none =>
            rw [hr] at hmem
            rcases hmem with h1 | h1 <;> simp at h1
        | some f =>
            rw [hr] at hmem
            dsimp only at hmem
            rcases hmem with h1 | h1
            · rcases List.mem_cons.mp h1 with h2 | h2
              · injection h2 with h3
                rw [h3]
                exact hid
              · exact absurd h2 (recordOutcome_dispatched_not_mem _ _ _ _ _ _)
            · rcases List.mem_cons.mp h1 with h2 | h2
              · cases h2
              · have := recordOutcome_completed_mem _ _ _ _ _ _ h2
                rw [this]
                exact hid
      · rcases hmem with h1 | h1 <;> simp at h1

theorem runAll_dispatch_ready (h : Handlers) (now : Nat) :
    ∀ (l : List Task) (s : State) (tid : Nat),
      (Event.dispatched tid ∈ (runAll h now s l).2 ∨
        Event.completed tid ∈ (runAll h now s l).2) →
      ∃ t' ∈ l, t'.id = tid := by
  intro l
  induction l with
  | nil =>
      intro s tid hmem
      rcases hmem with h1 | h1 <;> simp [runAll] at h1
  | cons t0 rest ih =>
      intro s tid hmem
      rw [runAll] at hmem
      dsimp only at hmem
      have hsplit : (Event.dispatched tid ∈ (runOne h now s t0).2 ∨
          Event.completed tid ∈ (runOne h now s t0).2) ∨
          (Event.dispatched tid ∈ (runAll h now (runOne h now s t0).1 rest).2 ∨
            Event.completed tid ∈ (runAll h now (runOne h now s t0).1 rest).2) := by
        rcases hmem with h1 | h1
        · rcases List.mem_append.mp h1 with h2 | h2
          · exact Or.inl (Or.inl h2)
          · exact Or.inr (Or.inl h2)
        · rcases List.mem_append.mp h1 with h2 | h2
          · exact Or.inl (Or.inr h2)
          · exact Or.inr (Or.inr h2)
      rcases hsplit with h1 | h1
      · exact ⟨t0, List.mem_cons_self t0 rest, (runOne_dispatch_id h now s t0 tid h1).symm⟩
      · obtain ⟨t', ht', hid⟩ := ih _ tid h1
        exact ⟨t', List.mem_cons_of_mem t0 ht', hid⟩

/-- C3: `IsReady(T)` returns true iff every WaitTask of T is `Done`; a task
in the pass's ready set with status `Do` has all its WaitTasks `Done` at
pass start; and the scheduler only ever dispatches (and only ever
completes) tasks from the pass's ready set. -/
theorem dependency_ordering (s : State) (t : Task) :
    (s.isReady t = true ↔ ∀ tid ∈ t.waitTasks, s.taskStatus tid = some .Done) ∧
    (∀ now, t ∈ readyTasks s now → t.status = .Do → s.isReady t = true) ∧
    (∀ (h : Handlers) (now tid : Nat),
      (Event.dispatched tid ∈ (ensurePass h now s).2 ∨
        Event.completed tid ∈ (ensurePass h now s).2) →
      ∃ t' ∈ readyTasks s now, t'.id = tid) := by
  refine ⟨?_, ?_, ?_⟩
  · unfold State.isReady
    simp only [List.all_eq_true, beq_iff_eq]
  · intro now hmem hdo
    have hp := List.of_mem_filter hmem
    unfold readyToRun at hp
    simp only [Bool.or_eq_true, Bool.and_eq_true, beq_iff_eq] at hp
    rcases hp with h1 | h1
    · exact h1.2
    · rw [hdo] at h1
      cases h1.1
  · intro h now tid hmem
    exact runAll_dispatch_ready h now (readyTasks s now) s tid hmem

/-- Witness for C3 at the A→B→C scenario: A is in the ready set with all
its (zero) WaitTasks `Done`. -/
theorem dependency_ordering_witness : abcState.isReady abcTaskA = true :=
  (dependency_ordering abcState abcTaskA).2.1 0 (by decide) rfl

theorem find?_id_map_ite (l : List Task) (tid : Nat) (g : Task → Task)
    (hg : ∀ t, (g t).id = t.id) (hnd : (l.map Task.id).Nodup)
    (t : Task) (ht : t ∈ l) (hid : t.id = tid) :
    (l.map (fun u => if u.id == tid then g u else u)).find?
      (fun u => u.id == tid) = some (g t) := by
  induction l with
  | nil => cases ht
  | cons a l ih =>
      simp only [List.map_cons, List.nodup_cons] at hnd
      rw [List.map_cons, List.find?_cons]
      rcases List.mem_cons.mp ht with h | h
      · subst h
        rw [if_pos (by simp [hid])]
        have : ((g t).id == tid) = true := by simp [hg t, hid]
        rw [this]
      · have hane : a.id ≠ tid := by
          intro hcontra
          refine hnd.1 ?_
          rw [hcontra, ← hid]
          exact List.mem_map_of_mem Task.id h
        rw [if_neg (by simp [hane])]
        have : (a.id == tid) = false := by simp [hane]
        rw [this]
        exact ih hnd.2 h

theorem setTaskStatus_getTask (s : State) (tid : Nat) (st : Status)
    (tOld : Task) (hnd : (s.tasks.map Task.id).Nodup)
    (hmem : tOld ∈ s.tasks) (hid : tOld.id = tid) :
    (s.setTaskStatus tid st).getTask tid = some { tOld with status := st } :=
  find?_id_map_ite s.tasks tid (fun u => { u with status := st })
    (fun _ => rfl) hnd tOld hmem hid

/-- C6: a handler returning retry-after(d) leaves its task in `Wait` with
retry timestamp now+d and an incremented retry counter; a `Wait` task whose
retry time has not elapsed is never in any pass's ready set, whatever the
pass; and readiness never depends on the retry counter — the engine
imposes no retry cap. -/
theorem retry_scheduling (h : Handlers) (now d : Nat) (t tOld : Task)
    (s : State) :
    ((s.tasks.map Task.id).Nodup → tOld ∈ s.tasks → tOld.id = t.id →
      (recordOutcome h now t (.retryAfter d) s).1.getTask t.id =
        some { tOld with status := .Wait, retryTime := now + d,
                         retryCount := tOld.retryCount + 1 }) ∧
    ((recordOutcome h now t (.retryAfter d) s).2 =
      [.retried t.id (now + d)]) ∧
    (∀ now', t.status = .Wait → now' < t.retryTime →
      t ∉ readyTasks s now') ∧
    (∀ n, readyToRun s now { t with retryCount := n } =
      readyToRun s now t) := by
  refine ⟨?_, rfl, ?_, fun n => rfl⟩
  · intro hnd hmem hid
    unfold recordOutcome State.getTask
    dsimp only
    exact find?_id_map_ite s.tasks t.id
      (fun u => { u with status := .Wait, retryTime := now + d,
                         retryCount := u.retryCount + 1 })
      (fun _ => rfl) hnd tOld hmem hid
  · intro now' hw hlt hmem
    have hp := List.of_mem_filter hmem
    unfold readyToRun at hp
    simp only [Bool.or_eq_true, Bool.and_eq_true, beq_iff_eq] at hp
    rcases hp with h1 | h1
    · rw [hw] at h1
      cases h1.1
    · exact absurd (of_decide_eq_true h1.2) (Nat.not_le_of_lt hlt)

/-- Witness for C6: the parked task is not in the ready set at time 3. -/
theorem retry_scheduling_witness : waitTask ∉ readyTasks waitState 3 :=
  (retry_scheduling abcHandlers 0 5 waitTask waitTask waitState).2.2.1 3
    rfl (by decide)

/-- C7: an Ensure pass on a state with no ready task (no `Do` task with all
WaitTasks `Done`, no `Wait` task whose retry time has elapsed) returns the
state unchanged with no events, and triggers no checkpoint write. -/
theorem ensure_idempotent_no_ready (h : Handlers) (now : Nat) (s : State)
    (hnone : ∀ t ∈ s.tasks, readyToRun s now t = false) :
    ensurePass h now s = (s, []) ∧ ensureCheckpoints h now s = false := by
  have hready : readyTasks s now = [] := by
    apply List.filter_eq_nil_iff.mpr
    intro a ha
    rw [hnone a ha]
    exact Bool.false_ne_true
  constructor
  · unfold ensurePass
    rw [hready]
    rfl
  · unfold ensureCheckpoints ensurePass
    rw [hready]
    simp [runAll]

/-- Witness for C7: on the parked-retry state at time 3 nothing is ready,
and the pass is a no-op with no checkpoint. -/
theorem ensure_idempotent_no_ready_witness :
    ensurePass abcHandlers 3 waitState = (waitState, []) ∧
      ensureCheckpoints abcHandlers 3 waitState = false :=
  ensure_idempotent_no_ready abcHandlers 3 waitState (by decide)

theorem abortHold_map_id (s : State) (cid : Nat) :
    (abortHold s cid).tasks.map Task.id = s.tasks.map Task.id := by
  apply map_id_update
  intro t
  split <;> rfl

theorem mem_abortHold (s : State) (cid : Nat) (w : Task)
    (hw : w ∈ s.tasks) (hns : w.status ≠ .Do) :
    w ∈ (abortHold s cid).tasks := by
  simp only [abortHold, List.mem_map]
  refine ⟨w, hw, ?_⟩
  rw [if_neg]
  simp [hns]

theorem undoLoop_map_id (h : Handlers) (cid fuel : Nat) :
    ∀ (s : State),
      (undoLoop h cid fuel s).1.tasks.map Task.id = s.tasks.map Task.id := by
  induction fuel with
  | zero =>
      intro s
      rfl
  | succ n ih =>
      intro s
      rw [undoLoop]
      cases he : undoOne h cid s with
      | none => rfl
      | some res =>
          obtain ⟨uid, s', evs⟩ := res
          dsimp only
          obtain ⟨u, _, _, _, _, _, hs'⟩ := undoOne_spec h cid s uid s' evs he
          rw [ih s']
          rcases hs' with h1 | h1 <;>
            · rw [h1]
              exact setTaskStatus_map_id s u.id _

theorem undoLoop_preserves_not_done (h : Handlers) (cid fuel : Nat) :
    ∀ (s : State) (w : Task),
      (s.tasks.map Task.id).Nodup → w ∈ s.tasks → w.status ≠ .Done →
      w ∈ (undoLoop h cid fuel s).1.tasks := by
  induction fuel with
  | zero =>
      intro s w _ hw _
      exact hw
  | succ n ih =>
      intro s w hnd hw hns
      rw [undoLoop]
      cases he : undoOne h cid s with
      | none => exact hw
      | some res =>
          obtain ⟨uid, s', evs⟩ := res
          dsimp only
          obtain ⟨u, humem, _, _, hund, _, hs'⟩ :=
            undoOne_spec h cid s uid s' evs he
          obtain ⟨st, hset⟩ : ∃ st, s' = s.setTaskStatus u.id st := by
            rcases hs' with h1 | h1
            · exact ⟨_, h1⟩
            · exact ⟨_, h1⟩
          have hune : w.id ≠ u.id := by
            intro hcontra
            have : w = u := List.inj_on_of_nodup_map hnd hw humem hcontra
            rw [this] at hns
            exact hns (undoable_spec s u hund).1
          have hw' : w ∈ s'.tasks := by
            rw [hset]
            exact mem_setTaskStatus_of_ne s u.id st w hw hune
          have hnd' : (s'.tasks.map Task.id).Nodup := by
            rw [hset, setTaskStatus_map_id]
            exact hnd
          exact ih s' w hnd' hw' hns

theorem failTask_taskStatus (h : Handlers) (t tOld : Task) (s : State)
    (hnd : (s.tasks.map Task.id).Nodup) (hmem : tOld ∈ s.tasks)
    (hid : tOld.id = t.id) :
    (failTask h t s).1.taskStatus t.id = some .Error := by
  unfold failTask
  dsimp only
  have hg1 : (s.setTaskStatus t.id .Error).getTask t.id =
      some { tOld with status := .Error } :=
    setTaskStatus_getTask s t.id .Error tOld hnd hmem hid
  have hmem1 : { tOld with status := Status.Error } ∈
      (s.setTaskStatus t.id .Error).tasks :=
    List.mem_of_find?_eq_some hg1
  have hnd1 : ((s.setTaskStatus t.id .Error).tasks.map Task.id).Nodup := by
    rw [setTaskStatus_map_id]
    exact hnd
  have hmem2 : { tOld with status := Status.Error } ∈
      (abortHold (s.setTaskStatus t.id .Error) t.changeID).tasks :=
    mem_abortHold _ _ _ hmem1 (by intro hh; cases hh)
  have hnd2 : ((abortHold (s.setTaskStatus t.id .Error)
      t.changeID).tasks.map Task.id).Nodup := by
    rw [abortHold_map_id]
    exact hnd1
  have hmemF : { tOld with status := Status.Error } ∈
      (undoLoop h t.changeID (s.setTaskStatus t.id .Error).tasks.length
        (abortHold (s.setTaskStatus t.id .Error) t.changeID)).1.tasks :=
    undoLoop_preserves_not_done h t.changeID _ _ _ hnd2 hmem2
      (by intro hh; cases hh)
  have hndF : ((undoLoop h t.changeID
      (s.setTaskStatus t.id .Error).tasks.length
      (abortHold (s.setTaskStatus t.id .Error)
        t.changeID)).1.tasks.map Task.id).Nodup := by
    rw [undoLoop_map_id]
    exact hnd2
  have hfind := find?_id_eq_some_of_mem _ hndF _ hmemF
  unfold State.taskStatus State.getTask
  have hid' : ({ tOld with status := Status.Error } : Task).id = t.id := hid
  rw [hid'] at hfind
  rw [hfind]
  rfl

theorem runAll_append (h : Handlers) (now : Nat) :
    ∀ (l1 l2 : List Task) (s : State),
      runAll h now s (l1 ++ l2) =
        ((runAll h now (runAll h now s l1).1 l2).1,
          (runAll h now s l1).2 ++
            (runAll h now (runAll h now s l1).1 l2).2) := by
  intro l1
  induction l1 with
  | nil =>
      intro l2 s
      simp [runAll]
  | cons t0 rest ih =>
      intro l2 s
      rw [List.cons_append, runAll, runAll]
      dsimp only
      rw [ih l2 (runOne h now s t0).1, List.append_assoc]

/-- C9: an unrecovered fault inside one task's handler is contained to that
task — the pass structurally processes every ready task regardless of
earlier outcomes (so a fault never terminates the pass), a fault outcome is
recorded as status `Error` on the faulting task, and in the two-change
scenario the unrelated ready task is still dispatched and completes. -/
theorem fault_containment (h : Handlers) (now : Nat) :
    (∀ (l1 l2 : List Task) (s : State),
      runAll h now s (l1 ++ l2) =
        ((runAll h now (runAll h now s l1).1 l2).1,
          (runAll h now s l1).2 ++
            (runAll h now (runAll h now s l1).1 l2).2)) ∧
    (∀ (m : String) (t tOld : Task) (s : State),
      (s.tasks.map Task.id).Nodup → tOld ∈ s.tasks → tOld.id = t.id →
      (recordOutcome h now t (.fault m) s).1.taskStatus t.id =
        some .Error) ∧
    (faultPass.1.taskStatus 10 = some .Error ∧
      faultPass.1.taskStatus 20 = some .Done ∧
      faultPass.2 = [.dispatched 10, .failed 10,
        .dispatched 20, .completed 20]) := by
  refine ⟨runAll_append h now, ?_, by decide, by decide, by decide⟩
  intro m t tOld s hnd hmem hid
  exact failTask_taskStatus h t tOld s hnd hmem hid

/-- Witness for C9's fault-to-`Error` component at the concrete faulting
task. -/
theorem fault_containment_witness :
    (recordOutcome faultHandlers 0 faultTaskX (.fault "runtime fault")
      faultState).1.taskStatus faultTaskX.id = some .Error :=
  (fault_containment faultHandlers 0).2.1 "runtime fault" faultTaskX
    faultTaskX faultState (by decide) (by decide) rfl

theorem checkConflictsOver_ok_iff (preds : FootprintPreds) (s : State)
    (fp : List String) :
    ∀ cs : List Change,
      (checkConflictsOver preds s fp cs = .ok () ↔
        ∀ c ∈ cs, (s.changeStatus c).terminal = false →
          ∀ r ∈ fp, r ∉ s.changeFootprint preds c) := by
  intro cs
  induction cs with
  | nil => simp [checkConflictsOver]
  | cons c rest ih =>
      rw [checkConflictsOver]
      by_cases hterm : (s.changeStatus c).terminal = true
      · rw [if_pos hterm, ih]
        constructor
        · intro hrest c' hc' ht' r hr
          rcases List.mem_cons.mp hc' with h1 | h1
          · rw [h1] at ht'
            rw [ht'] at hterm
            cases hterm
          · exact hrest c' h1 ht' r hr
        · intro hall c' hc' ht' r hr
          exact hall c' (List.mem_cons_of_mem c hc') ht' r hr
      · rw [if_neg hterm]
        cases hfind : fp.find? (fun r =>
            (s.changeFootprint preds c).contains r) with
        | some r =>
            constructor
            · intro hc
              cases hc
            · intro hall
              exfalso
              have hrmem := List.mem_of_find?_eq_some hfind
              have hrfp : r ∈ s.changeFootprint preds c := by
                have := List.find?_some hfind
                simpa using this
              exact hall c (List.mem_cons_self c rest)
                (Bool.not_eq_true _ ▸ by simpa using hterm) r hrmem hrfp
        | none =>
            rw [ih]
            constructor
            · intro hrest c' hc' ht' r hr
              rcases List.mem_cons.mp hc' with h1 | h1
              · subst h1
                intro hrfp
                have := List.find?_eq_none.mp hfind r hr
                simp only [Bool.not_eq_true] at this
                rw [show ((s.changeFootprint preds c').contains r) = true
                  from by simpa using hrfp] at this
                cases this
              · exact hrest c' h1 ht' r hr
            · intro hall c' hc' ht' r hr
              exact hall c' (List.mem_cons_of_mem c hc') ht' r hr

theorem checkConflictsOver_error (preds : FootprintPreds) (s : State)
    (fp : List String) :
    ∀ (cs : List Change) (e : ConflictError),
      checkConflictsOver preds s fp cs = .error e →
        e.resource ∈ fp ∧ ∃ c ∈ cs, c.id = e.changeID ∧
          (s.changeStatus c).terminal = false ∧
          e.resource ∈ s.changeFootprint preds c := by
  intro cs
  induction cs with
  | nil =>
      intro e he
      cases he
  | cons c rest ih =>
      intro e he
      rw [checkConflictsOver] at he
      by_cases hterm : (s.changeStatus c).terminal = true
      · rw [if_pos hterm] at he
        obtain ⟨hfp, c', hc', hrest⟩ := ih e he
        exact ⟨hfp, c', List.mem_cons_of_mem c hc', hrest⟩
      · rw [if_neg hterm] at he
        cases hfind : fp.find? (fun r =>
            (s.changeFootprint preds c).contains r) with
        | some r =>
            rw [hfind] at he
            simp only [Except.error.injEq] at he
            subst he
            refine ⟨List.mem_of_find?_eq_some hfind,
              c, List.mem_cons_self c rest, rfl, ?_, ?_⟩
            · simpa using hterm
            · have := List.find?_some hfind
              simpa using this
        | none =>
            rw [hfind] at he
            obtain ⟨hfp, c', hc', hrest⟩ := ih e he
            exact ⟨hfp, c', List.mem_cons_of_mem c hc', hrest⟩

/-- C4: admission succeeds iff the proposed footprint is disjoint from
every non-terminal change's footprint; any overlap with a non-terminal
change forces rejection; a returned conflict error names a resource of the
proposed footprint and a blocking non-terminal change contending for that
same resource; and a task kind with no registered footprint predicate has
an empty footprint, so it never conflicts. -/
theorem conflict_admission (preds : FootprintPreds) (s : State)
    (fp : List String) :
    (checkConflicts preds s fp = .ok () ↔
      ∀ c ∈ s.changes, (s.changeStatus c).terminal = false →
        ∀ r ∈ fp, r ∉ s.changeFootprint preds c) ∧
    (∀ c ∈ s.changes, (s.changeStatus c).terminal = false →
      ∀ r ∈ fp, r ∈ s.changeFootprint preds c →
        ∃ e, checkConflicts preds s fp = .error e) ∧
    (∀ e, checkConflicts preds s fp = .error e →
      e.resource ∈ fp ∧ ∃ c ∈ s.changes, c.id = e.changeID ∧
        (s.changeStatus c).terminal = false ∧
        e.resource ∈ s.changeFootprint preds c) ∧
    (∀ t : Task, preds t.kind = none → taskFootprint preds t = []) := by
  refine ⟨checkConflictsOver_ok_iff preds s fp s.changes, ?_, ?_, ?_⟩
  · intro c hc ht r hr hrfp
    cases hres : checkConflicts preds s fp with
    | error e => exact ⟨e, rfl⟩
    | ok u =>
        exfalso
        cases u
        have := (checkConflictsOver_ok_iff preds s fp s.changes).mp hres
        exact this c hc ht r hr hrfp
  · exact checkConflictsOver_error preds s fp s.changes
  · intro t hnone
    unfold taskFootprint
    rw [hnone]

/-- Witness for C4: a proposal contending for `pkg:foo` is rejected with a
conflict error naming `pkg:foo` and change 3. -/
theorem conflict_admission_witness :
    "pkg:foo" ∈ ["pkg:foo"] ∧
      ∃ c ∈ inFlightState.changes, c.id = 3 ∧
        (inFlightState.changeStatus c).terminal = false ∧
        "pkg:foo" ∈ inFlightState.changeFootprint demoPreds c :=
  (conflict_admission demoPreds inFlightState ["pkg:foo"]).2.2.1
    ⟨"pkg:foo", 3⟩ rfl

theorem statusOfWire_toWire (st : Status) :
    statusOfWire st.toWire = some st := by
  cases st <;> rfl

theorem loadTask_saveTask (t : Task) : loadTask (saveTask t) = some t := by
  unfold loadTask saveTask
  dsimp only
  rw [statusOfWire_toWire]

theorem loadTasks_saveTasks (l : List Task) :
    loadTasks (l.map saveTask) = some l := by
  induction l with
  | nil => rfl
  | cons t rest ih =>
      rw [List.map_cons, loadTasks, loadTask_saveTask, ih]

theorem loadChange_saveChange (c : Change) :
    loadChange (saveChange c) = c := rfl

theorem map_loadChange_saveChange (l : List Change) :
    (l.map saveChange).map loadChange = l := by
  induction l with
  | nil => rfl
  | cons c rest ih =>
      rw [List.map_cons, List.map_cons, loadChange_saveChange, ih]

/-- C5: the persistence round-trip is exact — for every State, loading the
saved document yields the identical State: same change and task graphs
(ids, kinds, summaries, statuses, wait/halt edge lists, retry counts,
retry timestamps, logs) and same custom data. -/
theorem persistence_round_trip (s : State) : load (save s) = some s := by
  unfold load save
  dsimp only
  rw [loadTasks_saveTasks, map_loadChange_saveChange]

/-- C8: at load time an absent state file starts the system with the empty
State; a present but malformed document is a fatal startup error; and a
well-formed document loads exactly, with no silent data loss. -/
theorem startup_load_behavior :
    readState none = .ok emptyState ∧
    (∀ w, load w = none →
      readState (some w) = .error "cannot read state: malformed state file") ∧
    (∀ w s, load w = some s → readState (some w) = .ok s) := by
  refine ⟨rfl, ?_, ?_⟩
  · intro w hw
    unfold readState
    dsimp only
    rw [hw]
  · intro w s hw
    unfold readState
    dsimp only
    rw [hw]

/-- Witness for C8: the malformed document is rejected as a fatal error. -/
theorem startup_load_behavior_witness :
    readState (some malformedDoc) =
      .error "cannot read state: malformed state file" :=
  startup_load_behavior.2.1 malformedDoc rfl

/-- Witness for C1 at a change whose two member tasks are both `Done`: the
aggregate status is `Done`. -/
theorem change_aggregate_status_done_error_witness :
    undoPairState.changeStatus ⟨1, "manip", "pq", [1, 2]⟩ = .Done :=
  (change_aggregate_status_done_error undoPairState
    ⟨1, "manip", "pq", [1, 2]⟩).1.mpr (by decide)

/-- Witness for C5 at a concrete three-task state: the round trip is
exact. -/
theorem persistence_round_trip_witness :
    load (save abcState) = some abcState :=
  persistence_round_trip abcState

/-- C10: for every options value, InstallSystem with an empty system label
returns an empty change ID and an error, issuing no HTTP request; and
DoSystemAction returns an error and issues no request whenever the system
label is empty or the action argument is missing. -/
theorem client_empty_label_guards (c : Client)
    (opts : Option InstallSystemOptions) (lbl : String)
    (act : Option SystemAction) :
    (c.InstallSystem "" opts =
      (("", some "cannot install with an empty system label"), [])) ∧
    ((lbl = "" ∨ act = none) →
      (c.DoSystemAction lbl act).1.isSome = true ∧
        (c.DoSystemAction lbl act).2 = []) := by
  constructor
  · rfl
  · intro hcase
    by_cases hlbl : lbl = ""
    · subst hlbl
      exact ⟨rfl, rfl⟩
    · have hact : act = none := by
        rcases hcase with h1 | h1
        · exact absurd h1 hlbl
        · exact h1
      subst hact
      unfold Client.DoSystemAction
      rw [if_neg (by simpa using hlbl)]
      exact ⟨rfl, rfl⟩

/-- Witness for C10: a concrete client rejects an action request with an
empty system label without issuing a request. -/
theorem client_empty_label_guards_witness :
    ((Client.mk (fun _ => .ok "1") (fun _ => .ok "ok")).DoSystemAction ""
        (some ⟨"Reinstall", "install"⟩)).1.isSome = true ∧
      ((Client.mk (fun _ => .ok "1") (fun _ => .ok "ok")).DoSystemAction ""
        (some ⟨"Reinstall", "install"⟩)).2 = [] :=
  (client_empty_label_guards (Client.mk (fun _ => .ok "1")
      (fun _ => .ok "ok")) none "" (some ⟨"Reinstall", "install"⟩)).2
    (Or.inl rfl)

end Snapd
